import Mathlib

/-!
Verification of the upstream tree cache and model/version index of
`src/server/app.py` (sldt-semantic-models-viz).

The embedding translates the Python source into Lean:

* a tree entry (one record of the GitHub tree listing) becomes `TreeEntry`;
* the module-level cache `_cache = {"timestamp": 0.0, "data": None}`
  becomes `Cache` (Python truthiness of `_cache["data"]` is `truthyList`:
  both `None` and the empty list are falsy);
* the outcome of the single `requests.get` call is a parameter `Upstream`:
  a 200 response with a tree, a non-200 response with status and JSON
  detail, or a transport failure (in which case `requests.get` raises and,
  since `_fetch_tree` has no handler, the exception propagates — modelled
  by the `FetchOutcome.exn` constructor carrying the unchanged cache);
* `_fetch_tree` becomes `fetchTree`, explicit in the cache state, the
  current time `now = time.time()` and the TTL `CACHE_TTL`;
* `_build_model_versions` becomes `buildModelVersions`, with Python's
  `path.split("/")` embedded as the character-level split `splitOnSlash`,
  `"/gen/" in path` as the substring test `hasSub`, and
  `filename.endswith(".html")` as the suffix test `endsWithS`;
* `_is_valid_model_version` becomes `isValidModelVersion` (Python `str`
  truthiness of optional arguments is `strTruthy`);
* the url-list construction of `sitemap` (lines 173-177) becomes
  `sitemapUrls`, with `urllib.parse.quote` embedded as `quote`
  (UTF-8 percent-encoding, safe characters `ALPHA / DIGIT / _.-~` plus
  `/`) and Python's `sorted` on strings as `sortStrings` (insertion sort
  by code-point lexicographic order — extensionally Python's `sorted`,
  since equal strings are indistinguishable).
-/

/-- One record of the upstream tree listing: `{"path": ..., "type": ...}`.
`entry.get("path") or ""` and `entry.get("type")` are total here (a missing
or null field is the empty string, which no check accepts). -/
structure TreeEntry where
  path : String
  type : String
deriving DecidableEq, Repr

/-- The module-level cache `_cache = {"timestamp": 0.0, "data": None}`.
`data = none` is Python's `None`; time is modelled by `Int`. -/
structure Cache where
  timestamp : Int
  data : Option (List TreeEntry)
deriving DecidableEq, Repr

/-- Python truthiness of `_cache["data"]`: `None` and `[]` are falsy. -/
def truthyList {α : Type} : Option (List α) → Bool
  | none => false
  | some l => !l.isEmpty

/-- The outcome of the one `requests.get(GITHUB_API_URL, ...)` call inside
`_fetch_tree`: a 200 response whose body's `tree` field is `tree`, a
non-200 response carrying its status code and JSON body (`detail`), or a
transport failure (connection error / timeout), in which case `requests`
raises an exception. -/
inductive Upstream where
  | ok (tree : List TreeEntry)
  | httpError (status : Nat) (detail : String)
  | netFail
deriving DecidableEq, Repr

/-- The triple `(tree, cached, error)` returned by `_fetch_tree`. -/
structure FetchReturn where
  tree : Option (List TreeEntry)
  cached : Bool
  err : Option (Nat × String)
deriving DecidableEq, Repr

/-- What a call to `_fetch_tree` does: either it returns a `FetchReturn`,
leaving the cache in state `c` (and `networkCalled` records whether
`requests.get` ran), or the `requests.get` call raises and the exception
propagates out of `_fetch_tree` unhandled, leaving the cache in state `c`. -/
inductive FetchOutcome where
  | ret (r : FetchReturn) (c : Cache) (networkCalled : Bool)
  | exn (c : Cache)
deriving DecidableEq, Repr

/-- `_fetch_tree(fallback_to_cache)` of `src/server/app.py` lines 233-252,
explicit in the cache state `c`, current time `now` and `CACHE_TTL = ttl`. -/
def fetchTree (ttl : Int) (c : Cache) (now : Int) (up : Upstream)
    (fallbackToCache : Bool) : FetchOutcome :=
  if truthyList c.data ∧ now - c.timestamp < ttl then
    .ret ⟨c.data, true, none⟩ c false
  else
    match up with
    | .netFail => .exn c
    | .httpError status detail =>
      if fallbackToCache ∧ truthyList c.data then
        .ret ⟨c.data, true, none⟩ c true
      else
        .ret ⟨none, false, some (status, detail)⟩ c true
    | .ok tree => .ret ⟨some tree, false, none⟩ ⟨now, some tree⟩ true

/-- Whether the call reached `requests.get` (a propagated exception can
only come from the network call, so `exn` counts as attempted). -/
def networkAttempted : FetchOutcome → Bool
  | .ret _ _ nc => nc
  | .exn _ => true

/-- The cache state after the call (for `exn`, the state at raise time). -/
def cacheAfter : FetchOutcome → Cache
  | .ret _ c _ => c
  | .exn c => c

/-- Python's `path.split("/")` at the character level: splitting on a
single-character separator keeps empty fields, and splitting the empty
string yields one empty field. -/
def splitOnSlash : List Char → List (List Char)
  | [] => [[]]
  | c :: cs =>
    if c = '/' then [] :: splitOnSlash cs
    else
      match splitOnSlash cs with
      | [] => [[c]]
      | g :: gs => (c :: g) :: gs

/-- `path.split("/")` as a list of segment strings. -/
def pathParts (path : String) : List String :=
  (splitOnSlash path.data).map String.mk

/-- One character list starts with another. -/
def isPre : List Char → List Char → Bool
  | [], _ => true
  | _ :: _, [] => false
  | a :: as, b :: bs => a == b && isPre as bs

/-- Python's substring test `needle in hay` on character lists. -/
def hasSub : List Char → List Char → Bool
  | [], needle => needle.isEmpty
  | c :: t, needle => isPre needle (c :: t) || hasSub t needle

/-- Python's `s.endswith(suffix)`. -/
def endsWithS (s suff : String) : Bool :=
  suff.data.isSuffixOf s.data

/-- The filter-and-destructure part of the loop body of
`_build_model_versions` (lines 258-271): `some (model, version)` when the
entry passes every check, `none` when any `continue` fires. -/
def entryModelVersion (e : TreeEntry) : Option (String × String) :=
  if e.type != "blob" then none
  else
    let path := e.path
    if !hasSub path.data "/gen/".data then none
    else
      let parts := pathParts path
      if parts.length < 4 then none
      else
        let model := parts.getD 0 ""
        let version := parts.getD 1 ""
        let segment := parts.getD 2 ""
        if segment != "gen" then none
        else
          let filename := parts.getLastD ""
          if !endsWithS filename ".html" then none
          else some (model, version)

/-- `models.setdefault(model, set()).add(version)` on an insertion-ordered
association list whose version lists hold no duplicates (set semantics). -/
def addVersion (models : List (String × List String)) (model version : String) :
    List (String × List String) :=
  match models with
  | [] => [(model, [version])]
  | (m, vs) :: rest =>
    if m = model then
      (m, if version ∈ vs then vs else vs ++ [version]) :: rest
    else
      (m, vs) :: addVersion rest model version

/-- One iteration of the loop of `_build_model_versions`. -/
def indexStep (ms : List (String × List String)) (e : TreeEntry) :
    List (String × List String) :=
  match entryModelVersion e with
  | some (m, v) => addVersion ms m v
  | none => ms

/-- `_build_model_versions(tree)` of lines 255-273: the dict
`model -> set of versions` as an association list. -/
def buildModelVersions (tree : List TreeEntry) : List (String × List String) :=
  tree.foldl indexStep []

/-- `(model, version)` is recorded in the built index. -/
def IndexMem (ms : List (String × List String)) (m v : String) : Prop :=
  ∃ p ∈ ms, p.1 = m ∧ v ∈ p.2

instance (ms : List (String × List String)) (m v : String) :
    Decidable (IndexMem ms m v) :=
  List.decidableBEx _ ms

/-- Python truthiness of an optional string (`None` and `""` are falsy),
used for the `model` and `version` arguments of
`_is_valid_model_version`. -/
def strTruthy : Option String → Bool
  | none => false
  | some s => !(s == "")

/-- `_is_valid_model_version(model, version)` of lines 276-287, explicit
in the cache state and the upstream outcome its inner `_fetch_tree` call
observes. `Except.error ()` is the exception propagating out of
`_fetch_tree` (and hence out of this function, which has no handler). -/
def isValidModelVersion (ttl : Int) (model version : Option String)
    (c : Cache) (now : Int) (up : Upstream) : Except Unit Bool :=
  if !strTruthy model then .ok false
  else
    match fetchTree ttl c now up true with
    | .exn _ => .error ()
    | .ret r _ _ =>
      if !truthyList r.tree then .ok true
      else
        let mv := buildModelVersions (r.tree.getD [])
        match mv.lookup (model.getD "") with
        | none => .ok false
        | some vs =>
          if strTruthy version && !vs.contains (version.getD "") then .ok false
          else .ok true

/-- Upper-case hexadecimal digit, as produced by `urllib.parse.quote`. -/
def hexDigitChar (n : Nat) : Char :=
  if n < 10 then Char.ofNat (48 + n) else Char.ofNat (55 + n)

/-- The UTF-8 encoding of one character, as a list of byte values. -/
def utf8Bytes (c : Char) : List Nat :=
  let n := c.toNat
  if n < 128 then [n]
  else if n < 2048 then [192 + n / 64, 128 + n % 64]
  else if n < 65536 then [224 + n / 4096, 128 + (n / 64) % 64, 128 + n % 64]
  else [240 + n / 262144, 128 + (n / 4096) % 64, 128 + (n / 64) % 64,
        128 + n % 64]

/-- A character `urllib.parse.quote` leaves unescaped with the default
`safe='/'`: ASCII letters and digits, `_`, `.`, `-`, `~`, and `/`. -/
def quoteSafe (c : Char) : Bool :=
  c.isAlpha || c.isDigit || c = '_' || c = '.' || c = '-' || c = '~' || c = '/'

/-- `urllib.parse.quote(s)` with the default `safe='/'`: safe characters
pass through, every other character's UTF-8 bytes become `%XX`. -/
def quote (s : String) : String :=
  String.mk
    (s.data.foldr
      (fun c acc =>
        (if quoteSafe c then [c]
         else (utf8Bytes c).foldr
           (fun b a => '%' :: hexDigitChar (b / 16) :: hexDigitChar (b % 16) :: a)
           []) ++ acc)
      [])

/-- Code-point lexicographic order on character lists: Python's `<=` on
strings. -/
def lexLe : List Char → List Char → Bool
  | [], _ => true
  | _ :: _, [] => false
  | a :: as, b :: bs =>
    if a.val < b.val then true
    else if b.val < a.val then false
    else lexLe as bs

/-- Insert into a sorted list of strings. -/
def insertSorted (x : String) : List String → List String
  | [] => [x]
  | y :: ys => if lexLe x.data y.data then x :: y :: ys else y :: insertSorted x ys

/-- Python's `sorted` on strings (insertion sort; equal strings are
identical, so any comparison sort agrees with `sorted`). -/
def sortStrings (l : List String) : List String :=
  l.foldr insertSorted []

/-- The url-list construction of the `sitemap` handler (lines 173-177):
`urls = ["/", "/diff"]`, then for each model in sorted order append its
page url and, for each of its versions in sorted order, the version url. -/
def sitemapUrls (mv : List (String × List String)) : List String :=
  (sortStrings (mv.map Prod.fst)).foldl
    (fun urls model =>
      (sortStrings ((mv.lookup model).getD [])).foldl
        (fun urls version =>
          urls ++ ["/models/" ++ quote model ++ "/versions/" ++ quote version])
        (urls ++ ["/models/" ++ quote model]))
    ["/", "/diff"]

/-- The derivation example of the spec: four blob entries. -/
def exampleTree : List TreeEntry :=
  [⟨"Battery/1.0.0/gen/index.html", "blob"⟩,
   ⟨"Battery/1.0.0/gen/diagram.png", "blob"⟩,
   ⟨"Battery/2.0.0/gen/index.html", "blob"⟩,
   ⟨"Other/readme.md", "blob"⟩]

deriving instance DecidableEq for Except

/-- Inverse of `splitOnSlash`: rejoin the segments with `'/'`. -/
def joinSlash : List (List Char) → List Char
  | [] => []
  | [g] => g
  | g :: gs => g ++ '/' :: joinSlash gs

/-! ### Helper lemmas for the index derivation -/

theorem splitOnSlash_ne_nil (cs : List Char) : splitOnSlash cs ≠ [] := by
  cases cs with
  | nil => simp [splitOnSlash]
  | cons c t =>
    simp only [splitOnSlash]
    split
    · simp
    · split <;> simp

theorem joinSlash_splitOnSlash (cs : List Char) :
    joinSlash (splitOnSlash cs) = cs := by
  induction cs with
  | nil => rfl
  | cons c t ih =>
    simp only [splitOnSlash]
    by_cases h : c = '/'
    · subst h
      simp only [if_pos rfl]
      obtain ⟨g, gs, hg⟩ := List.exists_cons_of_ne_nil (splitOnSlash_ne_nil t)
      rw [hg] at ih ⊢
      simp [joinSlash, ih]
    · rw [if_neg h]
      obtain ⟨g, gs, hg⟩ := List.exists_cons_of_ne_nil (splitOnSlash_ne_nil t)
      rw [hg] at ih ⊢
      cases gs with
      | nil => simpa [joinSlash] using congrArg (c :: ·) ih
      | cons g' gs' => simpa [joinSlash] using congrArg (c :: ·) ih

theorem isPre_append_self (l r : List Char) : isPre l (l ++ r) = true := by
  induction l with
  | nil => rfl
  | cons a t ih => simp [isPre, ih]

theorem hasSub_of_middle (pre post n : List Char) (c : Char) :
    hasSub (pre ++ (c :: n) ++ post) (c :: n) = true := by
  induction pre with
  | nil =>
    show (isPre (c :: n) ((c :: n) ++ post) || hasSub (n ++ post) (c :: n)) = true
    rw [isPre_append_self]
    simp
  | cons p t ih =>
    show (isPre (c :: n) ((p :: t) ++ (c :: n) ++ post)
        || hasSub (t ++ (c :: n) ++ post) (c :: n)) = true
    rw [ih]
    simp

/-- The `"/gen/" in path` guard is implied by the later shape checks: a
path with at least four segments whose third is `gen` contains `/gen/`. -/
theorem hasSub_gen_of_parts (path : String)
    (h4 : 4 ≤ (pathParts path).length)
    (hgen : (pathParts path).getD 2 "" = "gen") :
    hasSub path.data "/gen/".data = true := by
  rcases hps : splitOnSlash path.data with _ | ⟨p0, _ | ⟨p1, _ | ⟨p2, _ | ⟨p3, rest⟩⟩⟩⟩ <;>
    simp [pathParts, hps] at h4 hgen
  have hp2 : p2 = ['g', 'e', 'n'] := by
    have h : String.mk p2 = "gen" := hgen
    simpa using congrArg String.data h
  have hjoin := joinSlash_splitOnSlash path.data
  rw [hps, hp2] at hjoin
  have hshape : path.data =
      (p0 ++ '/' :: p1) ++ ('/' :: ['g', 'e', 'n', '/']) ++ joinSlash (p3 :: rest) := by
    rw [← hjoin]
    simp [joinSlash]
  rw [hshape, show ("/gen/".data) = '/' :: ['g', 'e', 'n', '/'] from rfl]
  exact hasSub_of_middle _ _ _ _

/-- An entry contributes `(m, v)` exactly when it is a blob whose path has
at least four segments, the first two being `m` and `v`, the third exactly
`gen`, and whose last segment ends in `.html` — the `"/gen/" in path`
check of the source is subsumed by these conditions. -/
theorem entryModelVersion_eq_some_iff (e : TreeEntry) (m v : String) :
    entryModelVersion e = some (m, v) ↔
      (e.type = "blob" ∧ 4 ≤ (pathParts e.path).length ∧
       (pathParts e.path).getD 0 "" = m ∧ (pathParts e.path).getD 1 "" = v ∧
       (pathParts e.path).getD 2 "" = "gen" ∧
       endsWithS ((pathParts e.path).getLastD "") ".html" = true) := by
  constructor
  · intro h
    simp only [entryModelVersion] at h
    split_ifs at h with h1 h2 h3 h4 h5
    simp_all
  · rintro ⟨htype, h4, hm, hv, hgen, hhtml⟩
    have h4n : ¬ (pathParts e.path).length < 4 := by omega
    simp only [List.getD_eq_getElem?_getD, List.getLastD_eq_getLast?] at hm hv hgen hhtml
    simp [entryModelVersion, htype, h4n, hgen, hhtml, hm, hv,
      hasSub_gen_of_parts e.path h4 (by simpa [List.getD_eq_getElem?_getD] using hgen)]

theorem IndexMem_nil (m v : String) : IndexMem [] m v ↔ False := by
  simp [IndexMem]

theorem IndexMem_cons (a : String) (vs : List String)
    (rest : List (String × List String)) (m v : String) :
    IndexMem ((a, vs) :: rest) m v ↔ ((a = m ∧ v ∈ vs) ∨ IndexMem rest m v) := by
  simp [IndexMem]

theorem IndexMem_addVersion (ms : List (String × List String))
    (model version m v : String) :
    IndexMem (addVersion ms model version) m v ↔
      (IndexMem ms m v ∨ (model = m ∧ version = v)) := by
  induction ms with
  | nil =>
    simp only [addVersion, IndexMem_cons, List.mem_singleton]
    simp [IndexMem_nil, eq_comm]
  | cons p rest ih =>
    obtain ⟨m0, vs0⟩ := p
    by_cases he : m0 = model
    · subst he
      have hred : addVersion ((m0, vs0) :: rest) m0 version =
          (m0, if version ∈ vs0 then vs0 else vs0 ++ [version]) :: rest := by
        simp [addVersion]
      rw [hred]
      by_cases hin : version ∈ vs0
      · rw [if_pos hin]
        simp only [IndexMem_cons]
        constructor
        · tauto
        · rintro ((h | h) | ⟨h1, h2⟩)
          · tauto
          · tauto
          · exact Or.inl ⟨h1, h2 ▸ hin⟩
      · rw [if_neg hin]
        simp only [IndexMem_cons, List.mem_append, List.mem_singleton]
        constructor
        · rintro (⟨h1, h2 | h2⟩ | h)
          · tauto
          · exact Or.inr ⟨h1, h2.symm⟩
          · tauto
        · rintro ((⟨h1, h2⟩ | h) | ⟨h1, h2⟩)
          · tauto
          · tauto
          · exact Or.inl ⟨h1, Or.inr h2.symm⟩
    · simp only [addVersion, if_neg he, IndexMem_cons, ih]
      tauto

theorem IndexMem_foldl (tree : List TreeEntry)
    (ms0 : List (String × List String)) (m v : String) :
    IndexMem (tree.foldl indexStep ms0) m v ↔
      (IndexMem ms0 m v ∨ ∃ e ∈ tree, entryModelVersion e = some (m, v)) := by
  induction tree generalizing ms0 with
  | nil => simp
  | cons e t ih =>
    rw [List.foldl_cons, ih]
    rcases hev : entryModelVersion e with _ | ⟨em, ev⟩
    · simp [indexStep, hev]
    · simp only [indexStep, hev, IndexMem_addVersion, List.mem_cons]
      constructor
      · rintro ((h | ⟨h1, h2⟩) | h)
        · tauto
        · exact Or.inr ⟨e, Or.inl rfl, by rw [hev, h1, h2]⟩
        · obtain ⟨e', he', hs⟩ := h
          exact Or.inr ⟨e', Or.inr he', hs⟩
      · rintro (h | ⟨e', he' | he', hsome⟩)
        · tauto
        · subst he'
          rw [hev] at hsome
          cases hsome
          tauto
        · exact Or.inr ⟨e', he', hsome⟩

/-! ### The claims -/

/-- C2: a pair `(a, b)` is in the index built by `_build_model_versions`
iff some blob entry's path splits on `/` into at least four segments with
first segment `a`, second `b`, third exactly `gen`, and last segment
ending in `.html`; on the spec's four-entry example the index is exactly
`Battery -> {1.0.0, 2.0.0}`. -/
theorem c2_buildIndex_mem_iff :
    (∀ (tree : List TreeEntry) (a b : String),
      IndexMem (buildModelVersions tree) a b ↔
        ∃ e ∈ tree, e.type = "blob" ∧ 4 ≤ (pathParts e.path).length ∧
          (pathParts e.path).getD 0 "" = a ∧ (pathParts e.path).getD 1 "" = b ∧
          (pathParts e.path).getD 2 "" = "gen" ∧
          endsWithS ((pathParts e.path).getLastD "") ".html" = true) ∧
    buildModelVersions exampleTree = [("Battery", ["1.0.0", "2.0.0"])] := by
  constructor
  · intro tree a b
    rw [buildModelVersions, IndexMem_foldl]
    simp only [IndexMem_nil, false_or, entryModelVersion_eq_some_iff]
  · decide

/-- C1: with a populated cache (a prior successful fetch left entries
`t ≠ []`) that has expired (so the upstream is actually consulted) and an
upstream answering a non-success status, `_fetch_tree` with
`fallback_to_cache=True` returns the prior snapshot as cached with no
error, and with `fallback_to_cache=False` returns the upstream error
`(status, detail)` with no entries. -/
theorem c1_stale_fallback (ttl : Int) (c : Cache) (now : Int) (s : Nat) (d : String)
    (t : List TreeEntry) (hdata : c.data = some t) (hne : t ≠ [])
    (hexp : ttl ≤ now - c.timestamp) :
    fetchTree ttl c now (.httpError s d) true = .ret ⟨some t, true, none⟩ c true ∧
    fetchTree ttl c now (.httpError s d) false =
      .ret ⟨none, false, some (s, d)⟩ c true := by
  have htr : truthyList c.data = true := by simp [hdata, truthyList, hne]
  have hcond : ¬ (truthyList c.data = true ∧ now - c.timestamp < ttl) := by
    rintro ⟨_, h⟩
    omega
  constructor
  · rw [fetchTree, if_neg hcond]
    simp [hdata, truthyList, hne]
  · rw [fetchTree, if_neg hcond]
    simp

/-- Witness for C1 at a concrete populated, expired cache. -/
theorem c1_witness :
    fetchTree 300 ⟨0, some exampleTree⟩ 400 (.httpError 502 "bad") true =
      .ret ⟨some exampleTree, true, none⟩ ⟨0, some exampleTree⟩ true ∧
    fetchTree 300 ⟨0, some exampleTree⟩ 400 (.httpError 502 "bad") false =
      .ret ⟨none, false, some (502, "bad")⟩ ⟨0, some exampleTree⟩ true :=
  c1_stale_fallback 300 ⟨0, some exampleTree⟩ 400 502 "bad" exampleTree rfl
    (by decide) (by decide)

/-- C3 counterexample: with an empty, never-fetched cache and an upstream
unreachable at the transport level, `_is_valid_model_version` does not
return `True` — the exception raised inside `requests.get` propagates out
of the validator (no handler exists on the way), so the claimed fail-open
answer is never produced. -/
theorem c3_counterexample :
    isValidModelVersion 300 (some "AnyModel") none ⟨0, none⟩ 50 .netFail =
      .error () ∧
    isValidModelVersion 300 (some "AnyModel") none ⟨0, none⟩ 50 .netFail ≠
      .ok true := by
  decide

/-- C3 amended: the fail-open default holds for upstream error responses,
not transport failures: with an empty or never-fetched cache (data falsy)
and an upstream answering a non-success HTTP status,
`_is_valid_model_version` returns `True` for every non-empty model name
and any version; a transport-level failure instead propagates the
exception (see the counterexample). -/
theorem c3_fail_open (ttl : Int) (c : Cache) (now : Int) (m : String)
    (version : Option String) (s : Nat) (d : String)
    (hm : m ≠ "") (hempty : truthyList c.data = false) :
    isValidModelVersion ttl (some m) version c now (.httpError s d) = .ok true := by
  have hcond : ¬ (truthyList c.data = true ∧ now - c.timestamp < ttl) := by
    simp [hempty]
  have hcond2 : ¬ (true = true ∧ truthyList c.data = true) := by
    simp [hempty]
  rw [isValidModelVersion, fetchTree, if_neg hcond, if_neg hcond2]
  simp [strTruthy, hm, truthyList]

/-- Witness for C3 on the never-fetched cache. -/
theorem c3_witness :
    isValidModelVersion 300 (some "AnyModel") none ⟨0, none⟩ 50 (.httpError 503 "down") =
      .ok true :=
  c3_fail_open 300 ⟨0, none⟩ 50 "AnyModel" none 503 "down" (by decide) (by decide)

/-- C4: `_fetch_tree` takes the fast path — no network call, cached
entries unchanged, `cached=True`, no error — exactly when the cache data
is truthy and `now - timestamp < ttl`; once `ttl ≤ now - timestamp` the
call reaches `requests.get`. -/
theorem c4_fast_path_iff (ttl : Int) (c : Cache) (now : Int) (up : Upstream) (fb : Bool) :
    (fetchTree ttl c now up fb = .ret ⟨c.data, true, none⟩ c false ↔
      (truthyList c.data = true ∧ now - c.timestamp < ttl)) ∧
    (ttl ≤ now - c.timestamp → networkAttempted (fetchTree ttl c now up fb) = true) := by
  constructor
  · constructor
    · intro h
      by_contra hcond
      rw [fetchTree.eq_def, if_neg hcond] at h
      cases up with
      | ok t => simp at h
      | httpError s d => split_ifs at h <;> simp at h
      | netFail => simp at h
    · intro hcond
      rw [fetchTree.eq_def, if_pos hcond]
  · intro hexp
    have hcond : ¬ (truthyList c.data = true ∧ now - c.timestamp < ttl) := by
      rintro ⟨_, h⟩
      omega
    rw [fetchTree.eq_def, if_neg hcond]
    cases up with
    | ok t => rfl
    | httpError s d => split_ifs <;> rfl
    | netFail => rfl

/-- Witness for C4: an expired cache leads to a network attempt. -/
theorem c4_witness :
    networkAttempted (fetchTree 300 ⟨0, some exampleTree⟩ 400 (.ok []) true) = true :=
  (c4_fast_path_iff 300 ⟨0, some exampleTree⟩ 400 (.ok []) true).2 (by decide)

/-- C5: whenever the inner `_fetch_tree` call yields a non-empty tree `t`,
`_is_valid_model_version` computes the pure cascade over `t`: falsy model
gives `False`, a model missing from the index gives `False`, a truthy
version missing from the model's version set gives `False`, anything else
`True`; and on the spec's example index, `Battery 1.0.0` is valid while
`Battery 9.9.9` and `Unknown` are not. -/
theorem c5_validator_cascade :
    (∀ (ttl : Int) (model version : Option String) (c : Cache) (now : Int)
        (up : Upstream) (r : FetchReturn) (c' : Cache) (nc : Bool) (t : List TreeEntry),
      fetchTree ttl c now up true = .ret r c' nc → r.tree = some t → t ≠ [] →
      isValidModelVersion ttl model version c now up =
        .ok (if !strTruthy model then false
             else
               match (buildModelVersions t).lookup (model.getD "") with
               | none => false
               | some vs =>
                 if strTruthy version && !vs.contains (version.getD "") then false
                 else true)) ∧
    isValidModelVersion 300 (some "Battery") (some "1.0.0") ⟨0, some exampleTree⟩ 0
        (.httpError 500 "x") = .ok true ∧
    isValidModelVersion 300 (some "Battery") (some "9.9.9") ⟨0, some exampleTree⟩ 0
        (.httpError 500 "x") = .ok false ∧
    isValidModelVersion 300 (some "Unknown") none ⟨0, some exampleTree⟩ 0
        (.httpError 500 "x") = .ok false := by
  refine ⟨?_, by decide, by decide, by decide⟩
  intro ttl model version c now up r c' nc t hret htree hne
  have htr : truthyList (some t) = true := by simp [truthyList, hne]
  rw [isValidModelVersion, hret]
  dsimp only
  rw [htree]
  rcases hsm : strTruthy model with _ | _ <;>
    rcases hlk : List.lookup (model.getD "") (buildModelVersions t) with _ | vs <;>
    simp [hsm, htr, hlk] <;> split_ifs <;> simp_all <;>
    rcases hsv : strTruthy version with _ | _ <;> simp_all

/-- C10: `_is_valid_model_version` treats an empty-string version exactly
like an omitted one — the two calls are equal for every state — and in
particular a model present in a non-empty tree's index validates with
`version=""`. -/
theorem c10_empty_version :
    (∀ (ttl : Int) (m : String) (c : Cache) (now : Int) (up : Upstream),
      isValidModelVersion ttl (some m) (some "") c now up =
        isValidModelVersion ttl (some m) none c now up) ∧
    (∀ (ttl : Int) (m : String) (c : Cache) (now : Int) (up : Upstream)
        (r : FetchReturn) (c' : Cache) (nc : Bool) (t : List TreeEntry)
        (vs : List String),
      fetchTree ttl c now up true = .ret r c' nc → r.tree = some t → t ≠ [] →
      m ≠ "" → (buildModelVersions t).lookup m = some vs →
      isValidModelVersion ttl (some m) (some "") c now up = .ok true) := by
  constructor
  · intro ttl m c now up
    rw [isValidModelVersion, isValidModelVersion]
    simp [strTruthy]
  · intro ttl m c now up r c' nc t vs hret htree hne hm hlk
    have htr : truthyList (some t) = true := by simp [truthyList, hne]
    have hsm : strTruthy (some m) = true := by simp [strTruthy, hm]
    rw [isValidModelVersion, hret]
    dsimp only
    rw [htree]
    simp [hsm, htr, hlk, strTruthy, hm]

theorem foldl_append_singleton (g : String → String) (vs : List String)
    (u0 : List String) :
    vs.foldl (fun u v => u ++ [g v]) u0 = u0 ++ vs.map g := by
  induction vs generalizing u0 with
  | nil => simp
  | cons v t ih => simp [ih]

theorem sitemapUrls_go (mv : List (String × List String)) (ms : List String)
    (u0 : List String) :
    ms.foldl
      (fun urls model =>
        (sortStrings ((mv.lookup model).getD [])).foldl
          (fun urls version =>
            urls ++ ["/models/" ++ quote model ++ "/versions/" ++ quote version])
          (urls ++ ["/models/" ++ quote model]))
      u0 =
    u0 ++ ms.flatMap (fun m =>
      ("/models/" ++ quote m) ::
        (sortStrings ((mv.lookup m).getD [])).map
          (fun v => "/models/" ++ quote m ++ "/versions/" ++ quote v)) := by
  induction ms generalizing u0 with
  | nil => simp
  | cons m t ih =>
    rw [List.foldl_cons, ih,
      foldl_append_singleton
        (fun version => "/models/" ++ quote m ++ "/versions/" ++ quote version)]
    simp

/-- C6: the sitemap url list is exactly the root, the diff root, then for
each model in sorted order its percent-encoded page url followed by its
versions' urls in sorted order; on the spec's two-model example it is the
seven expected paths. -/
theorem c6_sitemap_order :
    (∀ mv : List (String × List String),
      sitemapUrls mv =
        ["/", "/diff"] ++
          (sortStrings (mv.map Prod.fst)).flatMap (fun m =>
            ("/models/" ++ quote m) ::
              (sortStrings ((mv.lookup m).getD [])).map
                (fun v => "/models/" ++ quote m ++ "/versions/" ++ quote v))) ∧
    sitemapUrls [("B", ["2.0"]), ("A", ["1.0", "0.9"])] =
      ["/", "/diff", "/models/A", "/models/A/versions/0.9", "/models/A/versions/1.0",
       "/models/B", "/models/B/versions/2.0"] := by
  constructor
  · intro mv
    rw [sitemapUrls, sitemapUrls_go]
  · decide

/-- C7 counterexample: on a transport failure with an expired, populated
cache and `fallback_to_cache=True`, `_fetch_tree` does not serve the stale
snapshot — the exception from `requests.get` propagates unhandled. -/
theorem c7_counterexample :
    fetchTree 300 ⟨0, some exampleTree⟩ 400 .netFail true = .exn ⟨0, some exampleTree⟩ ∧
    fetchTree 300 ⟨0, some exampleTree⟩ 400 .netFail true ≠
      .ret ⟨some exampleTree, true, none⟩ ⟨0, some exampleTree⟩ true := by
  decide

/-- C7 amended: whenever the fast path is not taken, a transport failure
makes `_fetch_tree` propagate the exception, regardless of the fallback
flag and of the cache contents; stale fallback recovers only non-success
HTTP statuses. -/
theorem c7_transport_propagates (ttl : Int) (c : Cache) (now : Int) (fb : Bool)
    (h : ¬ (truthyList c.data = true ∧ now - c.timestamp < ttl)) :
    fetchTree ttl c now .netFail fb = .exn c := by
  rw [fetchTree, if_neg h]

/-- Witness for the amended C7. -/
theorem c7_witness :
    fetchTree 300 ⟨0, some exampleTree⟩ 400 .netFail true = .exn ⟨0, some exampleTree⟩ :=
  c7_transport_propagates 300 ⟨0, some exampleTree⟩ 400 true (by decide)

/-- C8: after any `_fetch_tree` call the cache is unchanged on an upstream
HTTP failure and on a transport failure, and in every case it is either
unchanged or replaced — entries and timestamp together — by the result of
the successful fetch that the call performed. -/
theorem c8_cache_invariant (ttl : Int) (c : Cache) (now : Int) (up : Upstream) (fb : Bool) :
    (∀ s d, up = .httpError s d → cacheAfter (fetchTree ttl c now up fb) = c) ∧
    (up = .netFail → cacheAfter (fetchTree ttl c now up fb) = c) ∧
    (cacheAfter (fetchTree ttl c now up fb) = c ∨
      ∃ t, up = .ok t ∧
        fetchTree ttl c now up fb = .ret ⟨some t, false, none⟩ ⟨now, some t⟩ true) := by
  by_cases hcond : truthyList c.data = true ∧ now - c.timestamp < ttl
  · rw [fetchTree.eq_def, if_pos hcond]
    exact ⟨fun _ _ _ => rfl, fun _ => rfl, Or.inl rfl⟩
  · rw [fetchTree.eq_def, if_neg hcond]
    cases up with
    | ok t =>
      refine ⟨?_, ?_, ?_⟩
      · intro s' d' h
        cases h
      · intro h
        cases h
      · exact Or.inr ⟨t, rfl, rfl⟩
    | httpError s d =>
      refine ⟨?_, ?_, ?_⟩
      · intro s' d' h
        split_ifs <;> rfl
      · intro h
        cases h
      · left
        split_ifs <;> rfl
    | netFail =>
      refine ⟨?_, ?_, ?_⟩
      · intro s' d' h
        cases h
      · intro h
        rfl
      · exact Or.inl rfl

/-- Witness for C8: a failed refresh leaves the cache unchanged. -/
theorem c8_witness :
    cacheAfter (fetchTree 300 ⟨0, some exampleTree⟩ 400 (.httpError 503 "down") false) =
      ⟨0, some exampleTree⟩ :=
  (c8_cache_invariant 300 ⟨0, some exampleTree⟩ 400 (.httpError 503 "down") false).1
    503 "down" rfl

/-- C9: a cached empty snapshot (`data = some []`) is treated as never
populated: every call reaches `requests.get` even inside the TTL window,
and a later upstream failure with fallback enabled returns the error
instead of the cached empty list. -/
theorem c9_empty_snapshot (ttl ts now : Int) (up : Upstream) (fb : Bool)
    (s : Nat) (d : String) (_hfresh : now - ts < ttl) :
    networkAttempted (fetchTree ttl ⟨ts, some []⟩ now up fb) = true ∧
    fetchTree ttl ⟨ts, some []⟩ now (.httpError s d) true =
      .ret ⟨none, false, some (s, d)⟩ ⟨ts, some []⟩ true := by
  have hcond : ¬ (truthyList (Cache.mk ts (some [])).data = true ∧
      now - (Cache.mk ts (some [])).timestamp < ttl) := by
    simp [truthyList]
  constructor
  · rw [fetchTree.eq_def, if_neg hcond]
    cases up with
    | ok t => rfl
    | httpError s' d' => split_ifs <;> rfl
    | netFail => rfl
  · rw [fetchTree, if_neg hcond]
    simp [truthyList]

/-- Witness for C9 inside the TTL window. -/
theorem c9_witness :
    networkAttempted (fetchTree 300 ⟨0, some []⟩ 10 (.ok exampleTree) true) = true ∧
    fetchTree 300 ⟨0, some []⟩ 10 (.httpError 500 "x") true =
      .ret ⟨none, false, some (500, "x")⟩ ⟨0, some []⟩ true :=
  c9_empty_snapshot 300 0 10 (.ok exampleTree) true 500 "x" (by decide)
